import Mathlib

/-!
Verification of the s3cpbp concurrent S3-to-local copy tool.

The development shallowly embeds the three pieces of the program that the
claims are about:

* the per-key retrying fetcher `downloadFile` of
  `internal/download/worker.go` (directory/file preparation, up to three
  download attempts, seek+truncate reset between attempts, removal of the
  partial file on fatal failure);
* the lister `ListFiles` of `internal/s3/listing.go` (paginated listing
  that stops at the first failing page, closes the queue via `defer`, and
  only logs the error);
* the orchestration of `cmd/s3cpbp/main.go` (a bounded channel of
  capacity 1000, a fixed pool of workers draining it, two atomic
  counters), modelled as a small-step transition system `Step` over
  `SysState`, with `Reachable` the runs from the initial state.

File contents is modelled as a list of bytes; a download attempt writes
its bytes at offset 0 over whatever the file currently holds, which is
how an `io.WriterAt` sink behaves.
-/

namespace S3cpbp

/-! ### Per-key retrying fetcher (internal/download/worker.go) -/

/-- One download attempt as seen by the destination file: the bytes the
attempt managed to write (starting at offset 0) and whether the attempt
returned without error. -/
structure FetchAttempt where
  bytes : List Nat
  ok : Bool

/-- Writing `p` at offset 0 over current content `c`: the written bytes
replace the front of `c`, any longer tail of `c` survives. -/
def writeAt0 (p c : List Nat) : List Nat := p ++ c.drop p.length

/-- Result of `downloadFile` for one key.  `completed` carries the final
file content; every other constructor corresponds to a `log.Fatalf` exit
path of the source. -/
inductive KeyOutcome where
  | completed (content : List Nat)
  | fatalMkdir
  | fatalCreate
  | fatalExhausted
  | fatalSeek (attempt : Nat)
  | fatalTruncate (attempt : Nat)
deriving DecidableEq

/-- Whether the destination file still exists after `downloadFile`.  On
success it does; on every fatal path the source either never created it
(mkdir/create failure) or explicitly closes and `os.Remove`s it
(retry exhaustion, seek failure, truncate failure). -/
def KeyOutcome.fileStays : KeyOutcome → Bool
  | KeyOutcome.completed _ => true
  | _ => false

/-- By how much `downloadFile` increments the `finishedFiles` counter:
1 on success, 0 on every fatal path (the increment sits after the retry
loop and `log.Fatalf` never returns). -/
def KeyOutcome.completedDelta : KeyOutcome → Nat
  | KeyOutcome.completed _ => 1
  | _ => 0

/-- Whether the outcome is a `log.Fatalf` exit (abnormal termination of
the whole process). -/
def KeyOutcome.isFatal : KeyOutcome → Bool
  | KeyOutcome.completed _ => false
  | _ => true

/-- The retry loop of `downloadFile` (`for attempt := 1; attempt <= 3`).
The first list argument is the list of remaining attempt numbers, the
second the current file content.  A successful attempt breaks out with
the resulting content; a failed third attempt removes the file and is
fatal; otherwise the file is reset (seek to 0, truncate to 0) and the
loop continues — a failing seek or truncate closes and removes the file
and is fatal. -/
def downloadLoop (fetch : Nat → FetchAttempt) (seekOk truncateOk : Nat → Bool) :
    List Nat → List Nat → KeyOutcome
  | [], content => KeyOutcome.completed content
  | attempt :: rest, content =>
    let st := fetch attempt
    let newContent := writeAt0 st.bytes content
    if st.ok = true then KeyOutcome.completed newContent
    else if attempt = 3 then KeyOutcome.fatalExhausted
    else if seekOk attempt = false then KeyOutcome.fatalSeek attempt
    else if truncateOk attempt = false then KeyOutcome.fatalTruncate attempt
    else downloadLoop fetch seekOk truncateOk rest []

/-- `downloadFile` of worker.go: `os.MkdirAll` on the parent directory
(once), `os.Create` of the destination file (once, truncating), then the
retry loop over attempts 1, 2, 3 starting from an empty file.  A failure
of either preparation step is fatal on the spot. -/
def downloadFile (mkdirOk createOk : Bool) (fetch : Nat → FetchAttempt)
    (seekOk truncateOk : Nat → Bool) : KeyOutcome :=
  if mkdirOk = false then KeyOutcome.fatalMkdir
  else if createOk = false then KeyOutcome.fatalCreate
  else downloadLoop fetch seekOk truncateOk [1, 2, 3] []

/-! ### Lister (internal/s3/listing.go) -/

/-- One page of the paginated listing: either a page of keys or a failed
page fetch. -/
inductive Page (κ : Type) where
  | ok (keys : List κ)
  | failed

/-- Keys emitted by `ListFiles`: pages are consumed in order, each key of
a good page is counted and pushed; the first failing page makes the
function return at once, so nothing after it is emitted. -/
def listEmitted {κ : Type} : List (Page κ) → List κ
  | [] => []
  | Page.failed :: _ => []
  | Page.ok ks :: rest => ks ++ listEmitted rest

/-- Whether the listing ran to the end without a page failure. -/
def listSucceeded {κ : Type} : List (Page κ) → Bool
  | [] => true
  | Page.failed :: _ => false
  | Page.ok _ :: rest => listSucceeded rest

/-- Observable result of `ListFiles`: the emitted keys, how many times
the channel was closed (the `defer close` runs exactly once on every
return path), and whether a page error was logged.  The function has no
return value, so the logged flag is the only failure signal. -/
structure ListOutcome (κ : Type) where
  keys : List κ
  closes : Nat
  loggedError : Bool

/-- `ListFiles` of listing.go over a given sequence of pages. -/
def ListFiles {κ : Type} (pages : List (Page κ)) : ListOutcome κ :=
  { keys := listEmitted pages
    closes := 1
    loggedError := !(listSucceeded pages) }

/-! ### Orchestration (cmd/s3cpbp/main.go) -/

/-- Capacity of the `foundFilesChan` channel: `make(chan string, 1000)`,
a literal independent of the configured concurrency. -/
def queueCapacity : Nat := 1000

/-- State of one worker goroutine: blocked on the channel, processing a
key, or exited from its `for key := range` loop. -/
inductive WStatus (κ : Type) where
  | idle
  | busy (key : κ)
  | done
deriving DecidableEq

/-- Whether a worker is currently processing a key. -/
def WStatus.isBusy {κ : Type} : WStatus κ → Bool
  | WStatus.busy _ => true
  | _ => false

/-- Number of workers currently processing a key. -/
def busyCount {κ : Type} (ws : List (WStatus κ)) : Nat :=
  ws.countP fun w => w.isBusy

/-- Global state of a run: the lister's remaining keys, a key already
counted in `discovered` but not yet pushed (the increment and the send
are two separate actions), the channel buffer, whether the channel is
closed, the two atomic counters, the worker pool, the delivery log
`taken` (worker id and key, in receive order) and whether a
`log.Fatalf` has fired. -/
structure SysState (κ : Type) where
  pending : List κ
  counted : Option κ
  queue : List κ
  closed : Bool
  discovered : Nat
  workers : List (WStatus κ)
  completed : Nat
  taken : List (Nat × κ)
  fatal : Bool
deriving DecidableEq

/-- The key held in `counted`, as a list (empty or a singleton). -/
def countedList {κ : Type} : Option κ → List κ
  | none => []
  | some k => [k]

/-- Initial state of a run: the lister is about to stream `keys`, the
channel is empty and open, both counters are 0, and `w` workers are
blocked on the empty channel. -/
def initState {κ : Type} (keys : List κ) (w : Nat) : SysState κ :=
  { pending := keys
    counted := none
    queue := []
    closed := false
    discovered := 0
    workers := List.replicate w (WStatus.idle)
    completed := 0
    taken := []
    fatal := false }

/-- Small-step transition relation of the pipeline, parameterised by the
channel capacity and by the per-key outcome `oc` of the retrying
fetcher.  A `log.Fatalf` (`fatal = true`) terminates the process, so no
rule applies afterwards. -/
inductive Step {κ : Type} (cap : Nat) (oc : κ → KeyOutcome) :
    SysState κ → SysState κ → Prop where
  | count (s : SysState κ) (k : κ) (rest : List κ)
      (hf : s.fatal = false) (hp : s.pending = k :: rest)
      (hc : s.counted = none) :
      Step cap oc s { s with
        pending := rest
        counted := some k
        discovered := s.discovered + 1 }
  | push (s : SysState κ) (k : κ)
      (hf : s.fatal = false) (hc : s.counted = some k)
      (hq : s.queue.length < cap) :
      Step cap oc s { s with
        counted := none
        queue := s.queue ++ [k] }
  | closeChan (s : SysState κ)
      (hf : s.fatal = false) (hp : s.pending = [])
      (hc : s.counted = none) (hcl : s.closed = false) :
      Step cap oc s { s with closed := true }
  | recv (s : SysState κ) (i : Nat) (k : κ) (rest : List κ)
      (h : i < s.workers.length)
      (hf : s.fatal = false) (hw : s.workers.get ⟨i, h⟩ = WStatus.idle)
      (hq : s.queue = k :: rest) :
      Step cap oc s { s with
        queue := rest
        workers := s.workers.set i (WStatus.busy k)
        taken := s.taken ++ [(i, k)] }
  | exitLoop (s : SysState κ) (i : Nat)
      (h : i < s.workers.length)
      (hf : s.fatal = false) (hw : s.workers.get ⟨i, h⟩ = WStatus.idle)
      (hcl : s.closed = true) (hq : s.queue = []) :
      Step cap oc s { s with workers := s.workers.set i (WStatus.done) }
  | finishOk (s : SysState κ) (i : Nat) (k : κ)
      (h : i < s.workers.length)
      (hf : s.fatal = false) (hw : s.workers.get ⟨i, h⟩ = WStatus.busy k)
      (hk : (oc k).isFatal = false) :
      Step cap oc s { s with
        workers := s.workers.set i (WStatus.idle)
        completed := s.completed + 1 }
  | finishFatal (s : SysState κ) (i : Nat) (k : κ)
      (h : i < s.workers.length)
      (hf : s.fatal = false) (hw : s.workers.get ⟨i, h⟩ = WStatus.busy k)
      (hk : (oc k).isFatal = true) :
      Step cap oc s { s with fatal := true }

/-- States reachable from the initial state of a run. -/
def Reachable {κ : Type} (cap : Nat) (oc : κ → KeyOutcome) (keys : List κ)
    (w : Nat) (s : SysState κ) : Prop :=
  Relation.ReflTransGen (Step cap oc) (initState keys w) s

/-- All workers have exited their receive loop (the condition under
which `wg.Wait()` in `main` returns). -/
def allDone {κ : Type} (s : SysState κ) : Prop :=
  ∀ ws ∈ s.workers, ws = WStatus.done

instance {κ : Type} [DecidableEq κ] (s : SysState κ) : Decidable (allDone s) :=
  inferInstanceAs (Decidable (∀ ws ∈ s.workers, ws = WStatus.done))

/-- The data carried by the final `log.Printf` of `main`. -/
structure FinalReport where
  downloadedFiles : Nat
  bucket : String
deriving DecidableEq

/-- Configuration handed to `main` by the config layer. -/
structure Config where
  bucket : String
  pfx : String
  destination : String
  concurrency : Nat
deriving DecidableEq

/-- The final report of `main`:
`log.Printf("All done! Downloaded %d files from S3 bucket Q%sQ", finishedFiles.Load(), cfg.Bucket)` —
it carries the finished-files counter and the bucket name, and nothing
else from the configuration. -/
def mainReport (cfg : Config) (finished : Nat) : FinalReport :=
  { downloadedFiles := finished, bucket := cfg.bucket }

/-! ### Auxiliary list lemmas -/

theorem countP_set {α : Type} (p : α → Bool) (l : List α) :
    ∀ (i : Nat) (v : α) (h : i < l.length),
    ((l.set i v).countP p) + (if p (l.get ⟨i, h⟩) then 1 else 0)
      = l.countP p + (if p v then 1 else 0) := by
  induction l with
  | nil => intro i v h; simp at h
  | cons a t ih =>
    intro i v h
    cases i with
    | zero =>
      have hg : (a :: t).get ⟨0, h⟩ = a := rfl
      simp only [List.set_cons_zero, List.countP_cons, hg]
      omega
    | succ n =>
      have hn : n < t.length := by simpa using h
      have := ih n v hn
      simp only [List.set_cons_succ, List.countP_cons, List.get_cons_succ]
      omega

theorem mem_set_self {α : Type} (l : List α) :
    ∀ (i : Nat) (v : α), i < l.length → v ∈ l.set i v := by
  induction l with
  | nil => intro i v h; simp at h
  | cons a t ih =>
    intro i v h
    cases i with
    | zero => simp
    | succ n =>
      have := ih n v (by simpa using h)
      simp [this]

/-- Effect on `busyCount` of replacing the worker at index `i`. -/
theorem busyCount_set {κ : Type} (ws : List (WStatus κ)) (i : Nat)
    (v : WStatus κ) (h : i < ws.length) :
    busyCount (ws.set i v) + (if (ws.get ⟨i, h⟩).isBusy then 1 else 0)
      = busyCount ws + (if v.isBusy then 1 else 0) := by
  have h0 := countP_set (fun x => x.isBusy) ws i v h
  simpa [busyCount] using h0

/-- A worker seen busy contributes to `busyCount`. -/
theorem busyCount_pos {κ : Type} (ws : List (WStatus κ)) (i : Nat) (k : κ)
    (h : i < ws.length) (hw : ws.get ⟨i, h⟩ = WStatus.busy k) :
    1 ≤ busyCount ws := by
  have hm : WStatus.busy k ∈ ws := hw ▸ List.get_mem ws i h
  have : 0 < ws.countP fun w => w.isBusy := by
    rw [List.countP_pos_iff]
    exact ⟨WStatus.busy k, hm, rfl⟩
  exact this

/-! ### The pipeline invariant -/

/-- Inductive invariant of the pipeline, relating the counters, the
queue, the delivery log and the worker pool. -/
structure Inv {κ : Type} (cap : Nat) (keys : List κ) (w : Nat)
    (s : SysState κ) : Prop where
  disc_pending : s.discovered + s.pending.length = keys.length
  disc_split : s.discovered =
    (countedList s.counted).length + s.queue.length + s.taken.length
  comp_busy : s.fatal = false →
    s.completed + busyCount s.workers = s.taken.length
  fatal_busy : s.fatal = true →
    s.completed + busyCount s.workers ≤ s.taken.length ∧
      1 ≤ busyCount s.workers
  closed_src : s.closed = true → s.pending = [] ∧ s.counted = none
  done_closed : (∃ x ∈ s.workers, x = WStatus.done) → s.closed = true
  perm : (s.pending ++ countedList s.counted ++ s.queue
    ++ s.taken.map Prod.snd).Perm keys
  wlen : s.workers.length = w
  done_queue : allDone s → 0 < w → s.queue = []
  qbound : s.queue.length ≤ cap

theorem busyCount_replicate_idle {κ : Type} (w : Nat) :
    busyCount (List.replicate w (WStatus.idle : WStatus κ)) = 0 := by
  induction w with
  | zero => rfl
  | succ n ih =>
    simp only [List.replicate_succ]
    have he : busyCount (WStatus.idle ::
        List.replicate n (WStatus.idle : WStatus κ))
        = busyCount (List.replicate n (WStatus.idle : WStatus κ)) := by
      simp [busyCount, List.countP_cons, WStatus.isBusy]
    rw [he, ih]

theorem inv_init {κ : Type} (cap : Nat) (keys : List κ) (w : Nat) :
    Inv cap keys w (initState keys w) := by
  refine ⟨?_, ?_, ?_, ?_, ?_, ?_, ?_, ?_, ?_, ?_⟩
  · simp [initState]
  · simp [initState, countedList]
  · intro _
    simp [initState, busyCount_replicate_idle]
  · intro h
    simp [initState] at h
  · intro h
    simp [initState] at h
  · intro h
    obtain ⟨x, hx, hd⟩ := h
    have := List.eq_of_mem_replicate (show x ∈ List.replicate w _ from hx)
    simp [this] at hd
  · simp [initState, countedList]
  · simp [initState]
  · intro _ _
    simp [initState]
  · simp [initState]

theorem inv_step {κ : Type} {cap : Nat} {oc : κ → KeyOutcome} {keys : List κ}
    {w : Nat} {s t : SysState κ} (hinv : Inv cap keys w s)
    (hstep : Step cap oc s t) : Inv cap keys w t := by
  obtain ⟨h1, h2, h3, h4, h5, h6, h7, h8, h9, h10⟩ := hinv
  cases hstep with
  | count k rest hf hp hc =>
    refine ⟨?_, ?_, ?_, ?_, ?_, ?_, ?_, ?_, ?_, ?_⟩
    · show s.discovered + 1 + rest.length = keys.length
      rw [hp] at h1
      simp at h1
      omega
    · show s.discovered + 1 =
        (countedList (some k)).length + s.queue.length + s.taken.length
      rw [hc] at h2
      simp [countedList] at h2 ⊢
      omega
    · exact h3
    · exact h4
    · intro hcl
      exact absurd (h5 hcl).1 (by simp [hp])
    · exact h6
    · rw [hp, hc] at h7
      refine List.Perm.trans ?_ h7
      show (rest ++ countedList (some k) ++ s.queue
        ++ s.taken.map Prod.snd).Perm
        ((k :: rest) ++ countedList none ++ s.queue ++ s.taken.map Prod.snd)
      simp only [countedList, List.append_assoc, List.nil_append,
        List.cons_append, List.singleton_append]
      exact List.perm_middle
    · exact h8
    · intro had hw0
      exact h9 had hw0
    · exact h10
  | push k hf hc hq =>
    refine ⟨?_, ?_, ?_, ?_, ?_, ?_, ?_, ?_, ?_, ?_⟩
    · exact h1
    · show s.discovered =
        (countedList none).length + (s.queue ++ [k]).length + s.taken.length
      rw [hc] at h2
      simp [countedList] at h2 ⊢
      omega
    · exact h3
    · exact h4
    · intro hcl
      exact absurd (h5 hcl).2 (by simp [hc])
    · exact h6
    · rw [hc] at h7
      refine List.Perm.trans ?_ h7
      show (s.pending ++ countedList none ++ (s.queue ++ [k])
        ++ s.taken.map Prod.snd).Perm
        (s.pending ++ countedList (some k) ++ s.queue ++ s.taken.map Prod.snd)
      simp only [countedList, List.append_assoc, List.nil_append,
        List.singleton_append]
      exact List.perm_middle.append_left s.pending
    · exact h8
    · intro had hw0
      have hne : 0 < s.workers.length := by rw [h8]; exact hw0
      have hmem := List.get_mem s.workers 0 hne
      have hdone := had _ hmem
      have hcl := h6 ⟨_, hmem, hdone⟩
      exact absurd (h5 hcl).2 (by simp [hc])
    · show (s.queue ++ [k]).length ≤ cap
      simp
      omega
  | closeChan hf hp hc hcl =>
    refine ⟨h1, h2, h3, h4, ?_, ?_, h7, h8, ?_, h10⟩
    · intro _
      exact ⟨hp, hc⟩
    · intro _
      rfl
    · intro had hw0
      exact h9 had hw0
  | recv i k rest h hf hw hq =>
    refine ⟨?_, ?_, ?_, ?_, ?_, ?_, ?_, ?_, ?_, ?_⟩
    · exact h1
    · show s.discovered = (countedList s.counted).length + rest.length
        + (s.taken ++ [(i, k)]).length
      rw [hq] at h2
      simp at h2 ⊢
      omega
    · intro hf2
      have hcs := busyCount_set s.workers i (WStatus.busy k) h
      rw [hw] at hcs
      have e1 : (WStatus.idle : WStatus κ).isBusy = false := rfl
      have e2 : (WStatus.busy k).isBusy = true := rfl
      rw [e1, e2] at hcs
      simp at hcs
      have h3e := h3 hf2
      show s.completed + busyCount (s.workers.set i (WStatus.busy k))
        = (s.taken ++ [(i, k)]).length
      simp only [List.length_append, List.length_cons, List.length_nil]
      omega
    · intro hcontra
      simp [hf] at hcontra
    · exact h5
    · intro hex
      obtain ⟨x, hx, hd⟩ := hex
      rcases List.mem_or_eq_of_mem_set hx with hx2 | hx2
      · exact h6 ⟨x, hx2, hd⟩
      · rw [hx2] at hd
        simp at hd
    · rw [hq] at h7
      refine List.Perm.trans ?_ h7
      show (s.pending ++ countedList s.counted ++ rest
        ++ (s.taken ++ [(i, k)]).map Prod.snd).Perm
        (s.pending ++ countedList s.counted ++ (k :: rest)
          ++ s.taken.map Prod.snd)
      simp only [List.map_append, List.map_cons, List.map_nil,
        List.append_assoc, List.cons_append, List.nil_append]
      have hx : ((rest ++ s.taken.map Prod.snd) ++ [k]).Perm
          (k :: (rest ++ s.taken.map Prod.snd)) := List.perm_append_comm
      simp only [List.append_assoc, List.singleton_append] at hx
      exact (hx.append_left (countedList s.counted)).append_left s.pending
    · show (s.workers.set i (WStatus.busy k)).length = w
      simpa using h8
    · intro had hw0
      have hbm := mem_set_self s.workers i (WStatus.busy k) h
      have := had _ hbm
      simp at this
    · rw [hq] at h10
      show rest.length ≤ cap
      simp at h10
      omega
  | exitLoop i h hf hw hcl hq =>
    refine ⟨h1, h2, ?_, ?_, h5, ?_, h7, ?_, ?_, h10⟩
    · intro hf2
      have hcs := busyCount_set s.workers i WStatus.done h
      rw [hw] at hcs
      have e1 : (WStatus.idle : WStatus κ).isBusy = false := rfl
      have e3 : (WStatus.done : WStatus κ).isBusy = false := rfl
      rw [e1, e3] at hcs
      simp at hcs
      have h3e := h3 hf2
      show s.completed + busyCount (s.workers.set i WStatus.done)
        = s.taken.length
      omega
    · intro hcontra
      simp [hf] at hcontra
    · intro _
      exact hcl
    · show (s.workers.set i WStatus.done).length = w
      simpa using h8
    · intro had hw0
      exact hq
  | finishOk i k h hf hw hk =>
    refine ⟨h1, h2, ?_, ?_, h5, ?_, h7, ?_, ?_, h10⟩
    · intro hf2
      have hcs := busyCount_set s.workers i WStatus.idle h
      rw [hw] at hcs
      have e1 : (WStatus.idle : WStatus κ).isBusy = false := rfl
      have e2 : (WStatus.busy k).isBusy = true := rfl
      rw [e1, e2] at hcs
      simp at hcs
      have h3e := h3 hf2
      show s.completed + 1 + busyCount (s.workers.set i WStatus.idle)
        = s.taken.length
      omega
    · intro hcontra
      simp [hf] at hcontra
    · intro hex
      obtain ⟨x, hx, hd⟩ := hex
      rcases List.mem_or_eq_of_mem_set hx with hx2 | hx2
      · exact h6 ⟨x, hx2, hd⟩
      · rw [hx2] at hd
        simp at hd
    · show (s.workers.set i WStatus.idle).length = w
      simpa using h8
    · intro had hw0
      have hbm := mem_set_self s.workers i WStatus.idle h
      have := had _ hbm
      simp at this
  | finishFatal i k h hf hw hk =>
    refine ⟨h1, h2, ?_, ?_, h5, h6, h7, h8, ?_, h10⟩
    · intro hcontra
      simp at hcontra
    · intro _
      exact ⟨le_of_eq (h3 hf), busyCount_pos s.workers i k h hw⟩
    · intro had hw0
      exact h9 had hw0

theorem isBusy_done {κ : Type} : (WStatus.done : WStatus κ).isBusy = false := rfl

theorem isBusy_idle {κ : Type} : (WStatus.idle : WStatus κ).isBusy = false := rfl

theorem isBusy_busy {κ : Type} (k : κ) : (WStatus.busy k).isBusy = true := rfl

/-- Every reachable state satisfies the invariant. -/
theorem reachable_inv {κ : Type} {cap : Nat} {oc : κ → KeyOutcome}
    {keys : List κ} {w : Nat} {s : SysState κ}
    (hs : Reachable cap oc keys w s) : Inv cap keys w s := by
  induction hs with
  | refl => exact inv_init cap keys w
  | tail hab hbc ih => exact inv_step ih hbc

/-- After a `log.Fatalf` the process is gone: no rule applies to a
fatal state. -/
theorem fatal_no_step {κ : Type} {cap : Nat} {oc : κ → KeyOutcome}
    {s t : SysState κ} (hf : s.fatal = true) (hstep : Step cap oc s t) :
    False := by
  cases hstep <;> simp_all

/-- Consequences of the invariant once the join barrier has returned:
with at least one worker, all workers done forces the channel closed and
drained, the lister finished, no fatal abort, and both counters equal to
the number of delivered keys, which is the number of listed keys. -/
theorem allDone_facts {κ : Type} {cap : Nat} {oc : κ → KeyOutcome}
    {keys : List κ} {w : Nat} {s : SysState κ}
    (hs : Reachable cap oc keys w s) (hw0 : 0 < w) (had : allDone s) :
    s.closed = true ∧ s.queue = [] ∧ s.pending = [] ∧ s.counted = none ∧
    s.fatal = false ∧ s.completed = s.taken.length ∧
    s.discovered = s.taken.length ∧ s.discovered = keys.length := by
  have inv := reachable_inv hs
  have hne : 0 < s.workers.length := by rw [inv.wlen]; exact hw0
  have hmem := List.get_mem s.workers 0 hne
  have hcl : s.closed = true := inv.done_closed ⟨_, hmem, had _ hmem⟩
  have hq : s.queue = [] := inv.done_queue had hw0
  obtain ⟨hp, hc⟩ := inv.closed_src hcl
  have hbz : busyCount s.workers = 0 := by
    show List.countP (fun x => x.isBusy) s.workers = 0
    rw [List.countP_eq_zero]
    intro x hx
    rw [had x hx, isBusy_done]
    simp
  have hf : s.fatal = false := by
    cases hfv : s.fatal
    · rfl
    · exfalso
      have := (inv.fatal_busy hfv).2
      omega
  have hcomp : s.completed = s.taken.length := by
    have := inv.comp_busy hf
    omega
  have hdisc : s.discovered = s.taken.length := by
    have h0 := inv.disc_split
    rw [hc, hq] at h0
    simpa [countedList] using h0
  have hkeys : s.discovered = keys.length := by
    have h0 := inv.disc_pending
    rw [hp] at h0
    simpa using h0
  exact ⟨hcl, hq, hp, hc, hf, hcomp, hdisc, hkeys⟩

/-! ### Listing lemmas -/

theorem listEmitted_fail {κ : Type} (good : List (List κ))
    (rest : List (Page κ)) :
    listEmitted (good.map Page.ok ++ Page.failed :: rest) = good.flatten := by
  induction good with
  | nil => rfl
  | cons g gs ih => simp [listEmitted, ih]

theorem listSucceeded_fail {κ : Type} (good : List (List κ))
    (rest : List (Page κ)) :
    listSucceeded (good.map Page.ok ++ Page.failed :: rest) = false := by
  induction good with
  | nil => rfl
  | cons g gs ih => simpa [listSucceeded] using ih

/-! ### The claims -/

/-- C1: if the fetch fails on attempts 1..k (k ≤ 2) and succeeds on
attempt k+1, and the between-attempt resets succeed, the destination
file ends up holding exactly the successful attempt's payload — the
seek-to-0 plus truncate-to-0 before each retry prevents any mixing with
bytes of an earlier partial write. -/
theorem claim1_retry_no_corruption (fetch : Nat → FetchAttempt)
    (seekOk truncateOk : Nat → Bool) (k : Nat) (hk : k ≤ 2)
    (hfail : ∀ a, 1 ≤ a → a ≤ k → (fetch a).ok = false)
    (hsucc : (fetch (k + 1)).ok = true)
    (hseek : ∀ a, seekOk a = true) (htrunc : ∀ a, truncateOk a = true) :
    downloadFile true true fetch seekOk truncateOk
      = KeyOutcome.completed (fetch (k + 1)).bytes := by
  interval_cases k
  · simp [downloadFile, downloadLoop, hsucc, writeAt0]
  · have f1 : (fetch 1).ok = false := hfail 1 (by omega) (by omega)
    simp [downloadFile, downloadLoop, f1, hsucc, hseek 1, htrunc 1, writeAt0]
  · have f1 : (fetch 1).ok = false := hfail 1 (by omega) (by omega)
    have f2 : (fetch 2).ok = false := hfail 2 (by omega) (by omega)
    simp [downloadFile, downloadLoop, f1, f2, hsucc, hseek 1, htrunc 1,
      hseek 2, htrunc 2, writeAt0]

/-- C2 witness helper: a fetch map in which attempt 2 succeeds. -/
def fetchC1 : Nat → FetchAttempt := fun a =>
  if a = 2 then { bytes := [5, 6], ok := true }
  else { bytes := [9], ok := false }

theorem claim1_witness :
    downloadFile true true fetchC1 (fun _ => true) (fun _ => true)
      = KeyOutcome.completed [5, 6] :=
  claim1_retry_no_corruption fetchC1 (fun _ => true) (fun _ => true) 1
    (by omega)
    (by
      intro a h1 h2
      have ha : a = 1 := by omega
      rw [ha]
      rfl)
    rfl (fun _ => rfl) (fun _ => rfl)

/-- C3: a key whose fetch fails on all 3 attempts ends in
`fatalExhausted`: the partial destination file is removed, the completed
counter is not incremented, the outcome is a `log.Fatalf` (non-zero
exit), and from a fatal state the pipeline takes no further step, so
remaining keys are never processed. -/
theorem claim3_retry_exhaustion {κ : Type} (fetch : Nat → FetchAttempt)
    (seekOk truncateOk : Nat → Bool)
    (hfail : ∀ a, 1 ≤ a → a ≤ 3 → (fetch a).ok = false)
    (hseek : ∀ a, seekOk a = true) (htrunc : ∀ a, truncateOk a = true)
    (cap : Nat) (oc : κ → KeyOutcome) (s : SysState κ)
    (hf : s.fatal = true) :
    downloadFile true true fetch seekOk truncateOk
      = KeyOutcome.fatalExhausted ∧
    (downloadFile true true fetch seekOk truncateOk).fileStays = false ∧
    (downloadFile true true fetch seekOk truncateOk).completedDelta = 0 ∧
    (downloadFile true true fetch seekOk truncateOk).isFatal = true ∧
    (∀ t, ¬ Step cap oc s t) := by
  have f1 : (fetch 1).ok = false := hfail 1 (by omega) (by omega)
  have f2 : (fetch 2).ok = false := hfail 2 (by omega) (by omega)
  have f3 : (fetch 3).ok = false := hfail 3 (by omega) (by omega)
  have hr : downloadFile true true fetch seekOk truncateOk
      = KeyOutcome.fatalExhausted := by
    simp [downloadFile, downloadLoop, f1, f2, f3, hseek 1, htrunc 1,
      hseek 2, htrunc 2]
  refine ⟨hr, by rw [hr]; rfl, by rw [hr]; rfl, by rw [hr]; rfl, ?_⟩
  intro t hstep
  exact fatal_no_step hf hstep

/-- Fetch map that fails on every attempt (witness input). -/
def fetchAllFail : Nat → FetchAttempt := fun _ => { bytes := [9], ok := false }

/-- Fatal pipeline state used as witness input: worker 0 has just hit a
fatal outcome on key 0 with key 1 still pending. -/
def fatalStateW : SysState Nat :=
  { pending := [1]
    counted := none
    queue := []
    closed := false
    discovered := 1
    workers := [WStatus.busy 0]
    completed := 0
    taken := [(0, 0)]
    fatal := true }

theorem claim3_witness :
    downloadFile true true fetchAllFail (fun _ => true) (fun _ => true)
      = KeyOutcome.fatalExhausted ∧
    (downloadFile true true fetchAllFail (fun _ => true)
      (fun _ => true)).fileStays = false ∧
    (downloadFile true true fetchAllFail (fun _ => true)
      (fun _ => true)).completedDelta = 0 ∧
    (downloadFile true true fetchAllFail (fun _ => true)
      (fun _ => true)).isFatal = true ∧
    (∀ t, ¬ Step 1000 (fun _ : Nat => KeyOutcome.fatalExhausted)
      fatalStateW t) :=
  claim3_retry_exhaustion fetchAllFail (fun _ => true) (fun _ => true)
    (fun _ _ _ => rfl) (fun _ => rfl) (fun _ => rfl)
    1000 (fun _ => KeyOutcome.fatalExhausted) fatalStateW rfl

/-- C6: a failure of `os.MkdirAll` or `os.Create` during Preparing is
immediately fatal for the whole run: the outcome is a `log.Fatalf`, the
result does not depend on the fetch oracle or on the seek/truncate
oracles (no download attempt, no retry of the filesystem operation),
and from a fatal state the pipeline takes no further step; when both
preparation steps succeed the retry loop starts on a truncated (empty)
file. -/
theorem claim6_preparing_fatal {κ : Type}
    (fetch fetch2 : Nat → FetchAttempt)
    (seekOk truncateOk seekOk2 truncateOk2 : Nat → Bool)
    (cap : Nat) (oc : κ → KeyOutcome) (s : SysState κ)
    (hf : s.fatal = true) :
    downloadFile false true fetch seekOk truncateOk
      = KeyOutcome.fatalMkdir ∧
    downloadFile false false fetch seekOk truncateOk
      = KeyOutcome.fatalMkdir ∧
    downloadFile true false fetch seekOk truncateOk
      = KeyOutcome.fatalCreate ∧
    KeyOutcome.fatalMkdir.isFatal = true ∧
    KeyOutcome.fatalCreate.isFatal = true ∧
    downloadFile false true fetch seekOk truncateOk
      = downloadFile false true fetch2 seekOk2 truncateOk2 ∧
    downloadFile true false fetch seekOk truncateOk
      = downloadFile true false fetch2 seekOk2 truncateOk2 ∧
    downloadFile true true fetch seekOk truncateOk
      = downloadLoop fetch seekOk truncateOk [1, 2, 3] [] ∧
    (∀ t, ¬ Step cap oc s t) :=
  ⟨rfl, rfl, rfl, rfl, rfl, rfl, rfl, rfl,
    fun _ hstep => fatal_no_step hf hstep⟩

theorem claim6_witness :
    downloadFile false true fetchAllFail (fun _ => true) (fun _ => true)
      = KeyOutcome.fatalMkdir ∧
    downloadFile false false fetchAllFail (fun _ => true) (fun _ => true)
      = KeyOutcome.fatalMkdir ∧
    downloadFile true false fetchAllFail (fun _ => true) (fun _ => true)
      = KeyOutcome.fatalCreate ∧
    KeyOutcome.fatalMkdir.isFatal = true ∧
    KeyOutcome.fatalCreate.isFatal = true ∧
    downloadFile false true fetchAllFail (fun _ => true) (fun _ => true)
      = downloadFile false true fetchC1 (fun _ => false) (fun _ => false) ∧
    downloadFile true false fetchAllFail (fun _ => true) (fun _ => true)
      = downloadFile true false fetchC1 (fun _ => false) (fun _ => false) ∧
    downloadFile true true fetchAllFail (fun _ => true) (fun _ => true)
      = downloadLoop fetchAllFail (fun _ => true) (fun _ => true)
          [1, 2, 3] [] ∧
    (∀ t, ¬ Step 1000 (fun _ : Nat => KeyOutcome.fatalExhausted)
      fatalStateW t) :=
  claim6_preparing_fatal fetchAllFail fetchC1 (fun _ => true)
    (fun _ => true) (fun _ => false) (fun _ => false)
    1000 (fun _ => KeyOutcome.fatalExhausted) fatalStateW rfl

/-- C9: if the seek or the truncate of the mid-retry reset itself fails
(after a failed attempt a = 1 or 2 whose earlier resets succeeded), the
outcome is the corresponding fatal path, on which the partially written
file is closed and removed — no partial file remains and the completed
counter is untouched. -/
theorem claim9_reset_failure_cleanup (fetch : Nat → FetchAttempt)
    (seekOk truncateOk : Nat → Bool) (a : Nat) (ha : a = 1 ∨ a = 2)
    (hfail : ∀ b, 1 ≤ b → b ≤ a → (fetch b).ok = false)
    (hprev : ∀ b, 1 ≤ b → b < a → seekOk b = true ∧ truncateOk b = true)
    (hbad : seekOk a = false ∨ truncateOk a = false) :
    (downloadFile true true fetch seekOk truncateOk
        = KeyOutcome.fatalSeek a ∨
      downloadFile true true fetch seekOk truncateOk
        = KeyOutcome.fatalTruncate a) ∧
    (downloadFile true true fetch seekOk truncateOk).fileStays = false ∧
    (downloadFile true true fetch seekOk truncateOk).isFatal = true ∧
    (downloadFile true true fetch seekOk truncateOk).completedDelta = 0 := by
  rcases ha with ha | ha
  · subst ha
    have f1 : (fetch 1).ok = false := hfail 1 (by omega) (by omega)
    cases hsv : seekOk 1 with
    | false =>
      have hr : downloadFile true true fetch seekOk truncateOk
          = KeyOutcome.fatalSeek 1 := by
        simp [downloadFile, downloadLoop, f1, hsv]
      exact ⟨Or.inl hr, by rw [hr]; rfl, by rw [hr]; rfl, by rw [hr]; rfl⟩
    | true =>
      rcases hbad with hb | hb
      · rw [hb] at hsv
        cases hsv
      · have hr : downloadFile true true fetch seekOk truncateOk
            = KeyOutcome.fatalTruncate 1 := by
          simp [downloadFile, downloadLoop, f1, hsv, hb]
        exact ⟨Or.inr hr, by rw [hr]; rfl, by rw [hr]; rfl, by rw [hr]; rfl⟩
  · subst ha
    have f1 : (fetch 1).ok = false := hfail 1 (by omega) (by omega)
    have f2 : (fetch 2).ok = false := hfail 2 (by omega) (by omega)
    obtain ⟨hs1, ht1⟩ := hprev 1 (by omega) (by omega)
    cases hsv : seekOk 2 with
    | false =>
      have hr : downloadFile true true fetch seekOk truncateOk
          = KeyOutcome.fatalSeek 2 := by
        simp [downloadFile, downloadLoop, f1, f2, hs1, ht1, hsv]
      exact ⟨Or.inl hr, by rw [hr]; rfl, by rw [hr]; rfl, by rw [hr]; rfl⟩
    | true =>
      rcases hbad with hb | hb
      · rw [hb] at hsv
        cases hsv
      · have hr : downloadFile true true fetch seekOk truncateOk
            = KeyOutcome.fatalTruncate 2 := by
          simp [downloadFile, downloadLoop, f1, f2, hs1, ht1, hsv, hb]
        exact ⟨Or.inr hr, by rw [hr]; rfl, by rw [hr]; rfl, by rw [hr]; rfl⟩

theorem claim9_witness :
    (downloadFile true true fetchAllFail (fun _ => false) (fun _ => true)
        = KeyOutcome.fatalSeek 1 ∨
      downloadFile true true fetchAllFail (fun _ => false) (fun _ => true)
        = KeyOutcome.fatalTruncate 1) ∧
    (downloadFile true true fetchAllFail (fun _ => false)
      (fun _ => true)).fileStays = false ∧
    (downloadFile true true fetchAllFail (fun _ => false)
      (fun _ => true)).isFatal = true ∧
    (downloadFile true true fetchAllFail (fun _ => false)
      (fun _ => true)).completedDelta = 0 :=
  claim9_reset_failure_cleanup fetchAllFail (fun _ => false)
    (fun _ => true) 1 (Or.inl rfl) (fun _ _ _ => rfl)
    (fun b _ hb => by omega) (Or.inl rfl)

/-! ### A concrete run used by the pipeline witnesses: keys 0 and 1,
one worker, every fetch succeeding. -/

/-- Per-key outcome map in which every key downloads successfully. -/
def ocOk : Nat → KeyOutcome := fun _ => KeyOutcome.completed []

def runA0 : SysState Nat := initState [0, 1] 1

def runA1 : SysState Nat :=
  ⟨[1], some 0, [], false, 1, [WStatus.idle], 0, [], false⟩

def runA2 : SysState Nat :=
  ⟨[1], none, [0], false, 1, [WStatus.idle], 0, [], false⟩

def runA3 : SysState Nat :=
  ⟨[], some 1, [0], false, 2, [WStatus.idle], 0, [], false⟩

def runA4 : SysState Nat :=
  ⟨[], none, [0, 1], false, 2, [WStatus.idle], 0, [], false⟩

def runA5 : SysState Nat :=
  ⟨[], none, [0, 1], true, 2, [WStatus.idle], 0, [], false⟩

def runA6 : SysState Nat :=
  ⟨[], none, [1], true, 2, [WStatus.busy 0], 0, [(0, 0)], false⟩

def runA7 : SysState Nat :=
  ⟨[], none, [1], true, 2, [WStatus.idle], 1, [(0, 0)], false⟩

def runA8 : SysState Nat :=
  ⟨[], none, [], true, 2, [WStatus.busy 1], 1, [(0, 0), (0, 1)], false⟩

def runA9 : SysState Nat :=
  ⟨[], none, [], true, 2, [WStatus.idle], 2, [(0, 0), (0, 1)], false⟩

def runA10 : SysState Nat :=
  ⟨[], none, [], true, 2, [WStatus.done], 2, [(0, 0), (0, 1)], false⟩

theorem runA3_reach : Reachable queueCapacity ocOk [0, 1] 1 runA3 := by
  have s1 : Step queueCapacity ocOk runA0 runA1 :=
    Step.count runA0 0 [1] rfl rfl rfl
  have s2 : Step queueCapacity ocOk runA1 runA2 :=
    Step.push runA1 0 rfl rfl (by decide)
  have s3 : Step queueCapacity ocOk runA2 runA3 :=
    Step.count runA2 1 [] rfl rfl rfl
  exact ((Relation.ReflTransGen.refl.tail s1).tail s2).tail s3

theorem runA10_reach : Reachable queueCapacity ocOk [0, 1] 1 runA10 := by
  have s4 : Step queueCapacity ocOk runA3 runA4 :=
    Step.push runA3 1 rfl rfl (by decide)
  have s5 : Step queueCapacity ocOk runA4 runA5 :=
    Step.closeChan runA4 rfl rfl rfl rfl
  have s6 : Step queueCapacity ocOk runA5 runA6 :=
    Step.recv runA5 0 0 [1] (by decide) rfl rfl rfl
  have s7 : Step queueCapacity ocOk runA6 runA7 :=
    Step.finishOk runA6 0 0 (by decide) rfl rfl rfl
  have s8 : Step queueCapacity ocOk runA7 runA8 :=
    Step.recv runA7 0 1 [] (by decide) rfl rfl rfl
  have s9 : Step queueCapacity ocOk runA8 runA9 :=
    Step.finishOk runA8 0 1 (by decide) rfl rfl rfl
  have s10 : Step queueCapacity ocOk runA9 runA10 :=
    Step.exitLoop runA9 0 (by decide) rfl rfl rfl rfl
  exact ((((((runA3_reach.tail s4).tail s5).tail s6).tail s7).tail
    s8).tail s9).tail s10

/-- C2: if every fetch succeeds and the Lister streamed `keys`, then at
run end (all workers have exited, so the join barrier has returned) both
counters equal the number of keys. -/
theorem claim2_completeness {κ : Type} (cap : Nat) (oc : κ → KeyOutcome)
    (keys : List κ) (w : Nat) (s : SysState κ)
    (_hok : ∀ k, (oc k).isFatal = false) (hw0 : 0 < w)
    (hs : Reachable cap oc keys w s) (had : allDone s) :
    s.completed = keys.length ∧ s.discovered = keys.length := by
  obtain ⟨_, _, _, _, _, hcomp, hdisc, hkeys⟩ := allDone_facts hs hw0 had
  omega

theorem claim2_witness :
    runA10.completed = ([0, 1] : List Nat).length ∧
    runA10.discovered = ([0, 1] : List Nat).length :=
  claim2_completeness queueCapacity ocOk [0, 1] 1 runA10
    (fun _ => rfl) (by omega) runA10_reach (by decide)

/-- C4: in every reachable state `completed ≤ discovered` (the Lister
counts a key before pushing it and a worker completes it only after
receiving it); and once the Lister has closed the channel and all
workers have drained, `completed = discovered` iff no fatal error
occurred. -/
theorem claim4_counter_invariant {κ : Type} (cap : Nat)
    (oc : κ → KeyOutcome) (keys : List κ) (w : Nat) (s : SysState κ)
    (hs : Reachable cap oc keys w s) :
    s.completed ≤ s.discovered ∧
    (0 < w → s.closed = true → allDone s →
      (s.completed = s.discovered ↔ s.fatal = false)) := by
  have inv := reachable_inv hs
  constructor
  · have hts : s.taken.length ≤ s.discovered := by
      have := inv.disc_split
      omega
    cases hfv : s.fatal
    · have := inv.comp_busy hfv
      have hbc : 0 ≤ busyCount s.workers := Nat.zero_le _
      omega
    · have := (inv.fatal_busy hfv).1
      omega
  · intro hw0 _ had
    obtain ⟨_, _, _, _, hf, hcomp, hdisc, _⟩ := allDone_facts hs hw0 had
    constructor
    · intro _
      exact hf
    · intro _
      rw [hcomp, hdisc]

theorem claim4_witness :
    runA10.completed ≤ runA10.discovered ∧
    (0 < 1 → runA10.closed = true → allDone runA10 →
      (runA10.completed = runA10.discovered ↔ runA10.fatal = false)) :=
  claim4_counter_invariant queueCapacity ocOk [0, 1] 1 runA10 runA10_reach

/-- C7: with pairwise-distinct keys, in every reachable state of every
run (any worker count, any interleaving) the delivery log contains each
key at most once — no key is received by two workers or twice by one —
and at run end every listed key has been delivered exactly once. -/
theorem claim7_exactly_once {κ : Type} (cap : Nat) (oc : κ → KeyOutcome)
    (keys : List κ) (w : Nat) (s : SysState κ) (hnd : keys.Nodup)
    (hs : Reachable cap oc keys w s) :
    (s.taken.map Prod.snd).Nodup ∧
    (0 < w → allDone s → (s.taken.map Prod.snd).Perm keys) := by
  have inv := reachable_inv hs
  constructor
  · have hbig : (s.pending ++ countedList s.counted ++ s.queue
        ++ s.taken.map Prod.snd).Nodup := inv.perm.symm.nodup hnd
    exact (List.sublist_append_right _ _).nodup hbig
  · intro hw0 had
    obtain ⟨_, hq, hp, hc, _, _, _, _⟩ := allDone_facts hs hw0 had
    have hperm := inv.perm
    rw [hp, hc, hq] at hperm
    simpa [countedList] using hperm

theorem claim7_witness :
    (runA10.taken.map Prod.snd).Nodup ∧
    (0 < 1 → allDone runA10 →
      (runA10.taken.map Prod.snd).Perm [0, 1]) :=
  claim7_exactly_once queueCapacity ocOk [0, 1] 1 runA10 (by decide)
    runA10_reach

/-- C8 (amended): in a non-fatal run the entry point returns only once
every worker has exited the drained-and-closed channel, and the final
report carries the completed count and the container (bucket)
identifier — the prefix is not part of the report. -/
theorem claim8_shutdown_and_report {κ : Type} (cap : Nat)
    (oc : κ → KeyOutcome) (keys : List κ) (w : Nat) (s : SysState κ)
    (cfg : Config) (hw0 : 0 < w) (hs : Reachable cap oc keys w s)
    (had : allDone s) :
    s.closed = true ∧ s.queue = [] ∧
    mainReport cfg s.completed
      = { downloadedFiles := s.completed, bucket := cfg.bucket } := by
  obtain ⟨hcl, hq, _, _, _, _, _, _⟩ := allDone_facts hs hw0 had
  exact ⟨hcl, hq, rfl⟩

theorem claim8_witness :
    runA10.closed = true ∧ runA10.queue = [] ∧
    mainReport
        { bucket := "b", pfx := "p", destination := "d", concurrency := 1 }
        runA10.completed
      = { downloadedFiles := runA10.completed, bucket := "b" } :=
  claim8_shutdown_and_report queueCapacity ocOk [0, 1] 1 runA10
    { bucket := "b", pfx := "p", destination := "d", concurrency := 1 }
    (by omega) runA10_reach (by decide)

/-- C8 counterexample: two configurations differing only in the prefix
produce identical final reports, so the final report does not name the
prefix identifier, contrary to the claim. -/
theorem claim8_counterexample :
    mainReport
        { bucket := "b", pfx := "p", destination := "d", concurrency := 2 }
        7
      = mainReport
        { bucket := "b", pfx := "q", destination := "d", concurrency := 2 }
        7
      ∧ ("p" : String) ≠ "q" :=
  ⟨rfl, by decide⟩

/-- C10: for every worker count, with the capacity `main` actually uses
(`make(chan string, 1000)`), every reachable state buffers at most 1000
keys, and whenever the Lister holds a counted-but-unpushed key and no
fatal abort has occurred, it can push (the queue can grow) exactly when
the buffer is below 1000 — it blocks only at the bound. -/
theorem claim10_queue_capacity {κ : Type} (oc : κ → KeyOutcome)
    (keys : List κ) (w : Nat) (s : SysState κ)
    (hs : Reachable queueCapacity oc keys w s) :
    s.queue.length ≤ 1000 ∧
    (∀ k, s.counted = some k → s.fatal = false →
      ((∃ t, Step queueCapacity oc s t ∧ s.queue.length < t.queue.length)
        ↔ s.queue.length < 1000)) := by
  have inv := reachable_inv hs
  constructor
  · exact inv.qbound
  · intro k hck hf
    constructor
    · rintro ⟨t, hstep, hlt⟩
      cases hstep with
      | count k2 rest hf2 hp hc => simp at hlt
      | push k2 hf2 hc hq => exact hq
      | closeChan hf2 hp hc hcl => simp at hlt
      | recv i k2 rest h hf2 hw hq =>
        rw [hq] at hlt
        simp only [List.length_cons] at hlt
        omega
      | exitLoop i h hf2 hw hcl hq => simp at hlt
      | finishOk i k2 h hf2 hw hk => simp at hlt
      | finishFatal i k2 h hf2 hw hk => simp at hlt
    · intro hlt
      refine ⟨_, Step.push s k hf hck hlt, ?_⟩
      simp

theorem claim10_witness :
    runA3.queue.length ≤ 1000 ∧
    (∀ k, runA3.counted = some k → runA3.fatal = false →
      ((∃ t, Step queueCapacity ocOk runA3 t
          ∧ runA3.queue.length < t.queue.length)
        ↔ runA3.queue.length < 1000)) :=
  claim10_queue_capacity ocOk [0, 1] 1 runA3 runA3_reach

/-- C5: when a page fetch fails, the Lister emits exactly the keys of
the pages before the failure (it stops at once and never retries),
closes the channel exactly once, surfaces the failure only as a logged
flag, and every key emitted before the failure is still delivered to a
worker by run end. -/
theorem claim5_listing_page_failure {κ : Type} (good : List (List κ))
    (rest : List (Page κ)) (cap w : Nat) (oc : κ → KeyOutcome)
    (s : SysState κ)
    (hs : Reachable cap oc
      (ListFiles (good.map Page.ok ++ Page.failed :: rest)).keys w s)
    (hw0 : 0 < w) (had : allDone s) :
    (ListFiles (good.map Page.ok ++ Page.failed :: rest)).keys
      = good.flatten ∧
    (ListFiles (good.map Page.ok ++ Page.failed :: rest)).closes = 1 ∧
    (ListFiles (good.map Page.ok ++ Page.failed :: rest)).loggedError
      = true ∧
    (s.taken.map Prod.snd).Perm good.flatten := by
  have hkeys : (ListFiles (good.map Page.ok ++ Page.failed :: rest)).keys
      = good.flatten := by
    simp [ListFiles, listEmitted_fail]
  refine ⟨hkeys, rfl, ?_, ?_⟩
  · simp [ListFiles, listSucceeded_fail]
  · have inv := reachable_inv hs
    obtain ⟨_, hq, hp, hc, _, _, _, _⟩ := allDone_facts hs hw0 had
    have hperm := inv.perm
    rw [hp, hc, hq] at hperm
    rw [← hkeys]
    simpa [countedList] using hperm

theorem claim5_witness :
    (ListFiles (([[0], [1]] : List (List Nat)).map Page.ok
      ++ Page.failed :: [])).keys = ([[0], [1]] : List (List Nat)).flatten ∧
    (ListFiles (([[0], [1]] : List (List Nat)).map Page.ok
      ++ Page.failed :: [])).closes = 1 ∧
    (ListFiles (([[0], [1]] : List (List Nat)).map Page.ok
      ++ Page.failed :: [])).loggedError = true ∧
    (runA10.taken.map Prod.snd).Perm
      ([[0], [1]] : List (List Nat)).flatten :=
  claim5_listing_page_failure [[0], [1]] [] queueCapacity 1 ocOk runA10
    runA10_reach (by omega) (by decide)

end S3cpbp
